import Mathlib

/-!
Verification development for the meta-filter repository: a shallow
embedding of `src/metafilter.h` and `src/main.cpp`.

Machine-number conventions: `float` costs are modelled as rationals
(every finite IEEE float is a rational, and the program only performs
order comparisons on them, which the rational order reproduces exactly);
`int` fields are modelled as integers (no value in the program approaches
the 32-bit range). The C++ variadic template pack of predicate components
is modelled as a nonempty list of evaluation functions.
-/

/-- Record type from `src/metafilter.h` (`struct Card`), member order as
declared in the source. -/
structure Card where
  m_name : String
  m_cost : ℚ
  m_id : ℤ
  m_version : ℤ
  m_leader_id : ℤ
  deriving DecidableEq

/-- The collection type `CardList`; the pointer indirection of
`std::vector<Card*>` is memory layout and is abstracted away. -/
abbrev CardList := List Card

/-- Largest finite value of the C++ `float` type,
`std::numeric_limits<float>::max() = (2 - 2^-23) * 2^127`, as a rational. -/
def FLT_MAX : ℚ := (2 ^ 24 - 1) * 2 ^ 104

/-- Trivial predicate from `src/metafilter.h` (`struct EmptyFilter`). -/
structure EmptyFilter

/-- `EmptyFilter::evaluate`: always true. -/
def EmptyFilter.evaluate (_f : EmptyFilter) (_card : Card) : Bool := true

/-- Range predicate from `src/metafilter.h` (`struct CostFilter`). -/
structure CostFilter where
  m_max_cost : ℚ
  m_min_cost : ℚ
  deriving DecidableEq

/-- Default constructor `CostFilter()`: max is the largest `float`, min 0. -/
def CostFilter.ctor : CostFilter := ⟨FLT_MAX, 0⟩

/-- Builder `CostFilter::max_cost`: overwrite the maximum bound. -/
def CostFilter.max_cost (f : CostFilter) (value : ℚ) : CostFilter :=
  ⟨value, f.m_min_cost⟩

/-- Builder `CostFilter::min_cost`: overwrite the minimum bound. -/
def CostFilter.min_cost (f : CostFilter) (value : ℚ) : CostFilter :=
  ⟨f.m_max_cost, value⟩

/-- `CostFilter::evaluate`: `card.m_cost > m_min_cost && card.m_cost < m_max_cost`. -/
def CostFilter.evaluate (f : CostFilter) (card : Card) : Bool :=
  decide (card.m_cost > f.m_min_cost) && decide (card.m_cost < f.m_max_cost)

/-- Membership predicate from `src/metafilter.h` (`struct VersionFilter`). -/
structure VersionFilter where
  m_versions : List ℤ
  deriving DecidableEq

/-- Default constructor `VersionFilter()`: empty accepted sequence. -/
def VersionFilter.ctor : VersionFilter := ⟨[]⟩

/-- Builder `VersionFilter::add_version`: append a value. -/
def VersionFilter.add_version (f : VersionFilter) (version : ℤ) : VersionFilter :=
  ⟨f.m_versions ++ [version]⟩

/-- `VersionFilter::evaluate`: `std::find` over the accepted sequence
succeeds, i.e. the version occurs in `m_versions`. -/
def VersionFilter.evaluate (f : VersionFilter) (card : Card) : Bool :=
  f.m_versions.contains card.m_version

/-- A membership filter built by successive `add_version` calls on the
default-constructed filter, one call per element of `vs` in order. -/
def VersionFilter.ofAdds (vs : List ℤ) : VersionFilter :=
  vs.foldl VersionFilter.add_version VersionFilter.ctor

/-- Composer from `src/metafilter.h`: `MetaFilter<Filter, MoreFilters...>`
holds one instance of each declared predicate kind (by inheritance); each
component instance is embedded as its `evaluate` function, the mandatory
first template argument as `first` and the variadic pack as `rest`. -/
structure MetaFilter where
  first : Card → Bool
  rest : List (Card → Bool)

/-- `MetaFilter::evaluate`: `ret = Filter::evaluate(card)`, then for every
pack member in declaration order `ret = ret && MoreFilters::evaluate(card)`
(value semantics of that loop; the short-circuit of `&&` does not change
the resulting value). -/
def MetaFilter.evaluate (mf : MetaFilter) (card : Card) : Bool :=
  mf.rest.foldl (fun ret f => ret && f card) (mf.first card)

/-- Instrumented `MetaFilter::evaluate`: the same computation together with
the number of component `evaluate` calls performed. The C++ built-in `&&`
short-circuits, so in `ret = ret && MoreFilters::evaluate(card)` the call
happens only when `ret` is still true; the first component is always
called. -/
def MetaFilter.evaluateTraced (mf : MetaFilter) (card : Card) : Bool × ℕ :=
  mf.rest.foldl (fun acc f => if acc.1 then (f card, acc.2 + 1) else acc)
    (mf.first card, 1)

/-- `MetaFilter<>`: the first template argument defaults to `EmptyFilter`
and the pack is empty. -/
def MetaFilter.ofEmptyDefault : MetaFilter :=
  ⟨EmptyFilter.mk.evaluate, []⟩

/-- Specification-level count of pack components actually invoked, given
the first component's result and the list of pack components' results: a
pack component runs only while the running conjunction is still true. -/
def invokedRest : Bool → List Bool → ℕ
  | _, [] => 0
  | false, _ :: _ => 0
  | true, b :: t => invokedRest b t + 1

/-- `get_cards` from `src/main.cpp`: clears the output collection, reserves
(a performance hint with no semantic effect), then for every card in input
order appends it to the output when the predicate accepts it; returns the
output size. Result pair: (output collection, return value). -/
def get_cards (cards : CardList) (filterEval : Card → Bool)
    (out_cards : CardList) : CardList × ℕ :=
  let cleared : CardList := []
  let out := cards.foldl
    (fun acc card => if filterEval card then acc ++ [card] else acc) cleared
  (out, out.length)

/-- Instrumented `get_cards`: additionally returns the input collection as
the loop leaves it (the loop only reads `cards`, passed by const
reference, and never writes to it) and the number of `filter.evaluate`
calls (exactly one per loop iteration). Result: (input after the call,
output, return value, evaluation count). -/
def get_cards_traced (cards : CardList) (filterEval : Card → Bool)
    (out_cards : CardList) : CardList × CardList × ℕ × ℕ :=
  let cleared : CardList := []
  let r := cards.foldl
    (fun acc card => (if filterEval card then acc.1 ++ [card] else acc.1, acc.2 + 1))
    (cleared, 0)
  (cards, r.1, r.1.length, r.2)

/-- First record of the dataset in `main`. -/
def card0 : Card := ⟨"Card1", 30, 0, 1, 0⟩

/-- Second record of the dataset in `main`. -/
def card1 : Card := ⟨"Card2", 10, 1, 1, 0⟩

/-- Third record of the dataset in `main` (cost 12.5). -/
def card2 : Card := ⟨"Card3", mkRat 25 2, 2, 1, 1⟩

/-- Fourth record of the dataset in `main`. -/
def card3 : Card := ⟨"Card4", 100, 3, 1, 1⟩

/-- Fifth record of the dataset in `main`. -/
def card4 : Card := ⟨"Card5", 45, 4, 2, 1⟩

/-- The five-record dataset of `main`. -/
def cardsMain : CardList := [card0, card1, card2, card3, card4]

/-- The cost component of `main`, after `filter.max_cost(50.f)`. -/
def costFilterMain : CostFilter := CostFilter.ctor.max_cost 50

/-- The version component of `main`, after
`filter.add_version(1).add_version(3)`. -/
def versionFilterMain : VersionFilter :=
  (VersionFilter.ctor.add_version 1).add_version 3

/-- The composed predicate of `main`: `MetaFilter<CostFilter, VersionFilter>`
with the configuration above. -/
def metaFilterMain : MetaFilter :=
  ⟨costFilterMain.evaluate, [versionFilterMain.evaluate]⟩

/-- Decimal rendering of a cost value by `operator<<` on `std::ostream`.
Modelled from the spec: the stream insertion of a `float` is standard
library behaviour outside this repository; per the default formatting
(and the example `12.5` in the spec) a value exactly representable with at
most six significant decimal digits prints with the minimal number of
digits, no trailing zeros and no decimal point for integral values. A
float value is a dyadic rational, so the reduced denominator is a power of
two, say 2 ^ k with k the minimal number of fractional decimal digits, and
the digit string is that of the numerator times 5 ^ k. -/
def costText (c : ℚ) : String :=
  if c.den = 1 then toString c.num
  else
    let k := ((List.range 7).find? fun j => c.den = 2 ^ j).getD 6
    let scaled := c.num * (((5 : ℕ) ^ k : ℕ) : ℤ)
    let sign := if scaled < 0 then "-" else ""
    let a := scaled.natAbs
    let ip := a / 10 ^ k
    let fp := a % 10 ^ k
    let fs := toString fp
    let fs2 := String.mk (List.replicate (k - fs.length) '0') ++ fs
    sign ++ toString ip ++ "." ++ fs2

/-- `operator<<(std::ostream&, Card const&)` from `src/metafilter.h`: the
chain of stream insertions, flattened to string concatenation. -/
def Card.render (card : Card) : String :=
  "[" ++ toString card.m_id ++ "] " ++ card.m_name ++ " (" ++
    costText card.m_cost ++ ") [" ++ toString card.m_version ++ ", " ++
    toString card.m_leader_id ++ "]"

/-- Rendering format following the spec's words: the fixed format
`[<identifier>] <name> (<cost>) [<version>, <category>]` with the record's
attribute values substituted. -/
def renderSpec (card : Card) : String :=
  "[" ++ toString card.m_id ++ "] " ++ card.m_name ++ " (" ++
    costText card.m_cost ++ ") [" ++ toString card.m_version ++ ", " ++
    toString card.m_leader_id ++ "]"

/-! Helper lemmas. -/

/-- Folding the running conjunction over a component list computes the
conjunction of the seed with all component results. -/
lemma foldl_and_eq_all (card : Card) (l : List (Card → Bool)) :
    ∀ b : Bool, l.foldl (fun ret f => ret && f card) b
      = (b && l.all fun f => f card) := by
  induction l with
  | nil => intro b; simp
  | cons f t ih => intro b; simp [ih, Bool.and_assoc]

/-- The append-when-accepted fold computes the accumulator followed by the
filtered list. -/
lemma foldl_append_filter (filterEval : Card → Bool) (l : List Card) :
    ∀ acc : List Card,
      l.foldl (fun acc card => if filterEval card then acc ++ [card] else acc) acc
        = acc ++ l.filter filterEval := by
  induction l with
  | nil => intro acc; simp
  | cons c t ih =>
    intro acc
    by_cases h : filterEval c = true
    · simp [h, ih, List.filter_cons]
    · simp only [Bool.not_eq_true] at h
      simp [h, ih, List.filter_cons]

/-- The instrumented fold computes the filtered list together with one
predicate call per element. -/
lemma foldl_append_filter_traced (filterEval : Card → Bool) (l : List Card) :
    ∀ (acc : List Card) (n : ℕ),
      l.foldl
        (fun acc card => (if filterEval card then acc.1 ++ [card] else acc.1, acc.2 + 1))
        (acc, n)
        = (acc ++ l.filter filterEval, n + l.length) := by
  induction l with
  | nil => intro acc n; simp
  | cons c t ih =>
    intro acc n
    by_cases h : filterEval c = true
    · simp [h, ih, List.filter_cons]
      omega
    · simp only [Bool.not_eq_true] at h
      simp [h, ih, List.filter_cons]
      omega

/-- Once the running conjunction is false, no further component runs. -/
lemma invokedRest_false (l : List Bool) : invokedRest false l = 0 := by
  cases l <;> rfl

/-- With a true running conjunction, the next component runs and the count
continues with that component's result. -/
lemma invokedRest_true_cons (b : Bool) (t : List Bool) :
    invokedRest true (b :: t) = invokedRest b t + 1 := rfl

/-- The instrumented conjunction fold computes the composed value together
with the number of pack components actually called. -/
lemma foldl_invoked (card : Card) (l : List (Card → Bool)) :
    ∀ (b : Bool) (n : ℕ),
      l.foldl (fun acc f => if acc.1 then (f card, acc.2 + 1) else acc) (b, n)
        = ((b && l.all fun f => f card),
            n + invokedRest b (l.map fun f => f card)) := by
  induction l with
  | nil => intro b n; simp [invokedRest]
  | cons f t ih =>
    intro b n
    cases b with
    | false =>
      have hstep : List.foldl (fun acc f => if acc.1 then (f card, acc.2 + 1) else acc)
          ((false : Bool), n) (f :: t)
          = List.foldl (fun acc f => if acc.1 then (f card, acc.2 + 1) else acc)
            ((false : Bool), n) t := rfl
      rw [hstep, ih]
      simp [invokedRest_false]
    | true =>
      have hstep : List.foldl (fun acc f => if acc.1 then (f card, acc.2 + 1) else acc)
          ((true : Bool), n) (f :: t)
          = List.foldl (fun acc f => if acc.1 then (f card, acc.2 + 1) else acc)
            (f card, n + 1) t := rfl
      rw [hstep, ih]
      simp only [List.map_cons, List.all_cons, Bool.true_and, invokedRest_true_cons,
        Prod.mk.injEq]
      refine ⟨trivial, ?_⟩
      ring

/-- Successive `add_version` calls append the added values in order. -/
lemma foldl_add_version (vs : List ℤ) :
    ∀ f : VersionFilter,
      (vs.foldl VersionFilter.add_version f).m_versions = f.m_versions ++ vs := by
  induction vs with
  | nil => intro f; simp
  | cons v t ih => intro f; simp [ih, VersionFilter.add_version]

/-- The accepted sequence of `VersionFilter.ofAdds vs` is `vs` itself. -/
lemma ofAdds_m_versions (vs : List ℤ) : (VersionFilter.ofAdds vs).m_versions = vs := by
  simp [VersionFilter.ofAdds, foldl_add_version, VersionFilter.ctor]


/-! Claim theorems. -/

/-- C1: for every composer built from a declared list of predicate
components and every record, the composed `evaluate` returns exactly the
logical AND of each declared component's individual `evaluate` on that
record. -/
theorem metaFilter_evaluate_is_and (mf : MetaFilter) (card : Card) :
    mf.evaluate card = (mf.first :: mf.rest).all fun f => f card := by
  simp [MetaFilter.evaluate, foldl_and_eq_all]

/-- C2: `get_cards` produces exactly the order-preserving subsequence of
the input on which the predicate is true (it equals `List.filter` of the
input, and is a sublist of the input), and its return value is the number
of matching elements. -/
theorem get_cards_is_filter (cards : CardList) (filterEval : Card → Bool)
    (out_cards : CardList) :
    (get_cards cards filterEval out_cards).1 = cards.filter filterEval
      ∧ List.Sublist (get_cards cards filterEval out_cards).1 cards
      ∧ (get_cards cards filterEval out_cards).2
          = (cards.filter filterEval).length := by
  refine ⟨?_, ?_, ?_⟩ <;>
    simp [get_cards, foldl_append_filter, List.filter_sublist]

/-- C3: with bounds `mn < mx` configured through the builders, the range
predicate accepts a record exactly when its cost lies strictly between the
bounds; equality with either bound is rejected; and the default-constructed
bounds are minimum 0 and maximum the largest representable `float`. -/
theorem costFilter_strict_range (mn mx : ℚ) (h : mn < mx) (card : Card) :
    (((CostFilter.ctor.min_cost mn).max_cost mx).evaluate card = true
        ↔ (mn < card.m_cost ∧ card.m_cost < mx))
      ∧ (card.m_cost = mn ∨ card.m_cost = mx
          → ((CostFilter.ctor.min_cost mn).max_cost mx).evaluate card = false)
      ∧ CostFilter.ctor.m_min_cost = 0 ∧ CostFilter.ctor.m_max_cost = FLT_MAX := by
  refine ⟨?_, ?_, rfl, rfl⟩
  · simp [CostFilter.evaluate, CostFilter.ctor, CostFilter.min_cost, CostFilter.max_cost]
  · rintro (hc | hc) <;>
      simp [CostFilter.evaluate, CostFilter.ctor, CostFilter.min_cost,
        CostFilter.max_cost, hc]

/-- Witness for C3 at `mn = 0`, `mx = 50` and the first dataset record. -/
theorem costFilter_strict_range_witness :
    ((0 : ℚ) < 50)
      ∧ ((((CostFilter.ctor.min_cost 0).max_cost 50).evaluate card0 = true
            ↔ ((0 : ℚ) < card0.m_cost ∧ card0.m_cost < 50))
          ∧ (card0.m_cost = 0 ∨ card0.m_cost = 50
              → ((CostFilter.ctor.min_cost 0).max_cost 50).evaluate card0 = false)
          ∧ CostFilter.ctor.m_min_cost = 0
          ∧ CostFilter.ctor.m_max_cost = FLT_MAX) :=
  ⟨by norm_num, costFilter_strict_range 0 50 (by norm_num) card0⟩

/-- C4: the membership predicate built by successive `add_version` calls
from the sequence `S` accepts a record exactly when the record's version
occurs in `S`; with an empty `S`, every record is rejected. -/
theorem versionFilter_mem (vs : List ℤ) (card : Card) :
    ((VersionFilter.ofAdds vs).evaluate card = true ↔ card.m_version ∈ vs)
      ∧ (vs = [] → (VersionFilter.ofAdds vs).evaluate card = false) := by
  constructor
  · simp [VersionFilter.evaluate, ofAdds_m_versions]
  · rintro rfl
    simp [VersionFilter.evaluate, ofAdds_m_versions]

/-- C5: on the five-record dataset of `main`, filtering with the composed
membership/range predicate of `main` (versions {1, 3} accepted, maximum
cost 50, other bounds at their defaults) outputs exactly the records with
identifiers 0, 1, 2 in that order, and returns 3. -/
theorem main_scenario :
    get_cards cardsMain metaFilterMain.evaluate [] = ([card0, card1, card2], 3)
      ∧ (get_cards cardsMain metaFilterMain.evaluate []).1.map Card.m_id
          = [0, 1, 2] := by
  constructor <;> decide

/-- C6 counterexample: on the dataset record with cost 100 the first
declared component (the cost filter) returns false, and the composed
evaluation performs exactly one component call even though two components
are declared, so not every declared component's `evaluate` is invoked. -/
theorem metaFilter_short_circuit_cex :
    (metaFilterMain.evaluateTraced card3).2 = 1
      ∧ metaFilterMain.rest.length + 1 = 2
      ∧ ¬((metaFilterMain.evaluateTraced card3).2
            = metaFilterMain.rest.length + 1) := by
  decide

/-- C6 amended: the composer always invokes the first declared component;
each later component is invoked only while every earlier result was true
(the `&&` short-circuits after the first false result), and the traced
value still equals the composed `evaluate`. -/
theorem metaFilter_invocation_count (mf : MetaFilter) (card : Card) :
    mf.evaluateTraced card
      = (mf.evaluate card,
          1 + invokedRest (mf.first card) (mf.rest.map fun f => f card)) := by
  rw [MetaFilter.evaluateTraced, MetaFilter.evaluate, foldl_invoked,
    foldl_and_eq_all]

/-- C7: running `get_cards` twice in succession with the same input and
predicate, the second run writing over the first run's output, leaves the
output identical to the first run's and returns the same count, because
the operation clears the output collection before filling it. -/
theorem get_cards_idempotent (cards : CardList) (filterEval : Card → Bool)
    (out_cards : CardList) :
    get_cards cards filterEval (get_cards cards filterEval out_cards).1
      = get_cards cards filterEval out_cards := rfl

/-- C8: the filter pass leaves the input collection unchanged, calls the
predicate exactly once per input element (hence at most once per element),
and computes the same output and count as `get_cards`. -/
theorem get_cards_frame (cards : CardList) (filterEval : Card → Bool)
    (out_cards : CardList) :
    (get_cards_traced cards filterEval out_cards).1 = cards
      ∧ (get_cards_traced cards filterEval out_cards).2.2.2 = cards.length
      ∧ (get_cards_traced cards filterEval out_cards).2.2.2 ≤ cards.length
      ∧ ((get_cards_traced cards filterEval out_cards).2.1,
          (get_cards_traced cards filterEval out_cards).2.2.1)
        = get_cards cards filterEval out_cards := by
  refine ⟨rfl, ?_, ?_, ?_⟩ <;>
    simp [get_cards_traced, get_cards, foldl_append_filter_traced,
      foldl_append_filter]

/-- C9: rendering a record produces exactly the fixed format
`[<identifier>] <name> (<cost>) [<version>, <category>]` with the record's
five attribute values substituted; the dataset record with identifier 2
renders as the literal example given in the spec. -/
theorem card_render_format (card : Card) :
    Card.render card = renderSpec card
      ∧ Card.render card2 = "[2] Card3 (12.5) [1, 1]" := by
  exact ⟨rfl, by decide⟩

/-- C10: the composer instantiated with zero explicitly declared predicate
kinds is accepted and defaults to the trivial predicate: its `evaluate` is
true on every record, and filtering any collection with it returns the
whole input together with its length. -/
theorem metaFilter_default_accepts_all (card : Card) (cards out_cards : CardList) :
    MetaFilter.ofEmptyDefault.evaluate card = true
      ∧ get_cards cards MetaFilter.ofEmptyDefault.evaluate out_cards
          = (cards, cards.length) := by
  constructor
  · rfl
  · have hfil : cards.filter MetaFilter.ofEmptyDefault.evaluate = cards :=
      List.filter_eq_self.mpr fun a _ => rfl
    have h1 : get_cards cards MetaFilter.ofEmptyDefault.evaluate out_cards
        = (cards.filter MetaFilter.ofEmptyDefault.evaluate,
            (cards.filter MetaFilter.ofEmptyDefault.evaluate).length) := by
      simp [get_cards, foldl_append_filter]
    rw [h1, hfil]

/-- Witness for C4 at the sequence [1, 3] and the first dataset record. -/
theorem versionFilter_mem_witness :
    ((VersionFilter.ofAdds [1, 3]).evaluate card0 = true ↔ card0.m_version ∈ [1, 3])
      ∧ ([1, 3] = ([] : List ℤ)
          → (VersionFilter.ofAdds [1, 3]).evaluate card0 = false) :=
  versionFilter_mem [1, 3] card0
